import Mathlib

/-!
# Verification of the task-app persistence/state core

Shallow embedding of `src/storage/tasksStorage.ts` (Record Store) and
`src/hooks/useTasks.ts` (Task Session) of the `my-task-app` repository.

Modelling decisions, mirroring the source:

* The storage backend (`AsyncStorage`) is used with a single key
  (`@mycrud/tasks`), so the persisted state is modelled as the value under
  that one key.  At the raw level (`RawBlob`) the value is either absent,
  present but not valid JSON, or a parsed JSON value (`Json`); this level
  embeds `getAll`'s decoding behaviour (lines 6-15) and `readAll`
  (lines 37-39), which perform no per-element validation.
* At the typed level, `saveAll` only ever writes `JSON.stringify` of a task
  array, so the state reachable through the store's own writes is
  `Store := Option (List Task)` (`none` = key absent, as after `removeItem`).
* `new Date().toISOString()` timestamps compare chronologically exactly as
  the strings compare lexicographically, so instants are modelled as `Nat`
  and each operation that reads the clock takes the current instant `now` as
  an explicit argument.
* The TypeScript interface `Task` has optional `description` and
  `updatedAt`; these become `Option` fields.  `Partial<...>` patch objects
  become records of `Option` fields (`none` = property not present in the
  patch object).
* `cryptoRandomId` draws on the ambient runtime; the runtime's random
  facility is modelled by `CryptoEnv` and passed explicitly, and `create`
  takes the generated id as an argument.
-/

namespace TaskApp

/-- JSON values, the codomain of `JSON.parse`. -/
inductive Json where
  | null
  | bool (b : Bool)
  | num (n : Int)
  | str (s : String)
  | arr (elems : List Json)
  | obj (fields : List (String × Json))

/-- The raw persisted value under the storage key: absent (`getItem` returns
null), present but rejected by `JSON.parse` (a throw), or parsed to a JSON
value. -/
inductive RawBlob where
  | absent
  | malformed (raw : String)
  | stored (v : Json)

/-- `getAll` at the raw level (tasksStorage.ts lines 6-15): absent key gives
`[]`; a parse failure is caught and gives `[]`; a parsed value is returned
as-is when it is an array (`Array.isArray`) and replaced by `[]` otherwise.
No element of the array is validated. -/
def getAllJson : RawBlob → List Json
  | .absent => []
  | .malformed _ => []
  | .stored v =>
    match v with
    | .arr xs => xs
    | _ => []

/-- `readAll` (lines 37-39) just forwards to `getAll`. -/
def readAllJson (b : RawBlob) : List Json :=
  getAllJson b

/-- The `Task` entity (src/types/Task.ts).  `description` and `updatedAt`
are optional in the interface. -/
structure Task where
  id : String
  title : String
  description : Option String
  createdAt : Nat
  updatedAt : Option Nat
  done : Bool
deriving DecidableEq, Repr

/-- Typed persisted state: the value under the single storage key, which the
store itself only ever writes as a serialized task array.  `none` models the
key being absent (initial state, or after `clearAll`). -/
abbrev Store := Option (List Task)

/-- `JSON.stringify` of one task: fields present in the object.  `undefined`
optional fields are omitted from the output. -/
def encodeTask (t : Task) : Json :=
  .obj (
    [("id", Json.str t.id), ("title", Json.str t.title)]
    ++ (match t.description with
        | some d => [("description", Json.str d)]
        | none => [])
    ++ [("createdAt", Json.num t.createdAt)]
    ++ (match t.updatedAt with
        | some u => [("updatedAt", Json.num u)]
        | none => [])
    ++ [("done", Json.bool t.done)])

/-- The raw blob written by `saveAll`: `JSON.stringify(tasks)`, a JSON array
of encoded tasks. -/
def encodeStore : Store → RawBlob
  | none => .absent
  | some ts => .stored (.arr (ts.map encodeTask))

/-- `getAll` at the typed level: the persisted list, or `[]` when the key is
absent. -/
def getAll (s : Store) : List Task :=
  s.getD []

/-- `saveAll`: overwrite the single key with the serialized list. -/
def saveAll (ts : List Task) : Store :=
  some ts

/-- `readAll` forwards to `getAll`. -/
def readAll (s : Store) : List Task :=
  getAll s

/-- Argument of `create`: `Omit<Task, 'id' | 'createdAt' | 'updatedAt'>`.
`done` is read through `??`, so a missing/undefined `done` is meaningful and
is modelled by `none`. -/
structure CreateInput where
  title : String
  description : Option String
  done : Option Bool
deriving DecidableEq, Repr

/-- `create` (lines 21-35): read the collection, build the new task with
`createdAt = updatedAt = now` and `done = input.done ?? false`, prepend it,
write back, return it.  The generated id and the clock reading are explicit
arguments. -/
def create (s : Store) (newId : String) (now : Nat) (input : CreateInput) :
    Store × Task :=
  let tasks := getAll s
  let newTask : Task :=
    { id := newId
      title := input.title
      description := input.description
      createdAt := now
      updatedAt := some now
      done := input.done.getD false }
  (saveAll (newTask :: tasks), newTask)

/-- `readById` (lines 41-44): first task with the given id. -/
def readById (s : Store) (id : String) : Option Task :=
  (getAll s).find? (fun t => t.id == id)

/-- Argument of `update`: `Partial<Omit<Task, 'id' | 'createdAt'>>`.  Each
field is `none` when the property is not present in the patch object.  A
present `description` may itself be `none` (explicit `undefined`), clearing
the field. -/
structure TaskPatch where
  title : Option String
  description : Option (Option String)
  updatedAt : Option Nat
  done : Option Bool
deriving DecidableEq, Repr

/-- The object spread `{ ...t, ...patch, updatedAt: now }`: fields of the
patch override those of `t`, and `updatedAt` is then forced to `now`
regardless of the patch.  `id` and `createdAt` cannot occur in the patch
type, so they are copied from `t`. -/
def applyPatch (t : Task) (p : TaskPatch) (now : Nat) : Task :=
  { id := t.id
    title := p.title.getD t.title
    description := p.description.getD t.description
    createdAt := t.createdAt
    updatedAt := some now
    done := p.done.getD t.done }

/-- The `tasks.map` loop of `update` together with its `updatedTask`
closure variable: every task whose id matches is patched in place, and the
captured `updatedTask` ends up holding the last match's patched value
(left-to-right assignment, later assignments win). -/
def updateList (id : String) (now : Nat) (p : TaskPatch) :
    List Task → List Task × Option Task
  | [] => ([], none)
  | t :: ts =>
    let r := updateList id now p ts
    if t.id == id then
      let t2 := applyPatch t p now
      (t2 :: r.1, r.2.orElse (fun _ => some t2))
    else
      (t :: r.1, r.2)

/-- `update` (lines 46-62): read the collection, map the patch over it,
write the result back (also when nothing matched), return the patched task
or `undefined`. -/
def update (s : Store) (id : String) (now : Nat) (p : TaskPatch) :
    Store × Option Task :=
  let r := updateList id now p (getAll s)
  (saveAll r.1, r.2)

/-- `remove` (lines 64-68): write back the collection with every task of the
given id filtered out. -/
def remove (s : Store) (id : String) : Store :=
  saveAll ((getAll s).filter (fun t => t.id != id))

/-- `clearAll` (lines 70-72): `AsyncStorage.removeItem` deletes the key
itself, so the single-key state becomes `none` whatever it was. -/
def clearAll (_ : Store) : Store :=
  none

/-- The ambient random facility seen by `cryptoRandomId` (lines 75-85).
`available fill` models `globalThis.crypto` (or `nativeCrypto`) being
present with a working `getRandomValues` that writes `fill` into the
16-byte buffer.  `unavailable` models neither object existing (or
`getRandomValues` missing): the optional chains `?.getRandomValues?.()`
then evaluate to `undefined` WITHOUT throwing, so the buffer keeps its
`Uint8Array` zero-initialisation.  `throwing` models the property access or
call actually raising, the only way the `catch` branch runs; its
`Math.random().toString(36).slice(2) + Date.now().toString(36)` result is
carried abstractly as the two digit strings. -/
inductive CryptoEnv where
  | available (fill : List Nat)
  | unavailable
  | throwing (randomDigits : String) (timeDigits : String)
deriving DecidableEq, Repr

/-- `b.toString(16).padStart(2, '0')` for a byte `b < 256`: two lowercase
hex digits. -/
def byteToHex (b : Nat) : String :=
  let digit := fun (n : Nat) => "0123456789abcdef".toList.getD n '0'
  String.mk [digit (b / 16 % 16), digit (b % 16)]

/-- `cryptoRandomId` (lines 75-85): allocate 16 zero bytes, let the runtime
fill them if it can, and render them as hex.  Note that when no secure
random source exists, the optional chaining swallows the absence instead of
throwing, so the zero bytes are rendered and the catch-branch fallback id is
never produced. -/
def cryptoRandomId : CryptoEnv → String
  | .available fill =>
    String.join ((((fill.map (fun b => b % 256)) ++ List.replicate 16 0).take 16).map byteToHex)
  | .unavailable =>
    String.join ((List.replicate 16 0).map byteToHex)
  | .throwing randomDigits timeDigits => randomDigits ++ timeDigits

/-- The derived statistics of `useTasks` (useTasks.ts lines 49-53). -/
structure Stats where
  total : Nat
  done : Nat
  pending : Nat
deriving DecidableEq, Repr

/-- `stats`: `total` is the mirror length, `done` counts entries with
`done` set, `pending = total - done`. -/
def stats (tasks : List Task) : Stats :=
  let total := tasks.length
  let done := (tasks.filter (fun t => t.done)).length
  { total := total, done := done, pending := total - done }

/-- The Task Session state that the claims concern: the store it talks to
and its in-memory mirror `tasks` (useTasks.ts).  `loading`/`error` only
matter for the initial load and are not needed by any claim. -/
structure Session where
  store : Store
  tasks : List Task
deriving DecidableEq, Repr

/-- `load` (lines 10-21): replace the mirror wholesale with `readAll()`. -/
def sessionLoad (s : Store) : Session :=
  { store := s, tasks := readAll s }

/-- `createTask` (lines 27-30): await `store.create`, then prepend the
returned task to the mirror. -/
def createTask (sess : Session) (newId : String) (now : Nat)
    (input : CreateInput) : Session :=
  let r := create sess.store newId now input
  { store := r.1, tasks := r.2 :: sess.tasks }

/-- `updateTask` (lines 32-37): await `store.update`; if it returned a task,
replace every mirror entry with the matching id by the returned task;
otherwise leave the mirror alone. -/
def updateTask (sess : Session) (id : String) (now : Nat) (p : TaskPatch) :
    Session :=
  let r := update sess.store id now p
  match r.2 with
  | some t =>
    { store := r.1, tasks := sess.tasks.map (fun q => if q.id == id then t else q) }
  | none => { store := r.1, tasks := sess.tasks }

/-- `removeTask` (lines 39-42): await `store.remove`, then filter the id out
of the mirror. -/
def removeTask (sess : Session) (id : String) : Session :=
  { store := remove sess.store id
    tasks := sess.tasks.filter (fun q => q.id != id) }

/-- One sequential session mutation, each awaited to completion.  The id a
`createOp` carries is the one `cryptoRandomId` produced for that call, and
`now` is the clock reading of the call. -/
inductive SessionOp where
  | createOp (newId : String) (now : Nat) (input : CreateInput)
  | updateOp (id : String) (now : Nat) (p : TaskPatch)
  | removeOp (id : String)
deriving DecidableEq, Repr

/-- Apply one session operation. -/
def applyOp (sess : Session) : SessionOp → Session
  | .createOp newId now input => createTask sess newId now input
  | .updateOp id now p => updateTask sess id now p
  | .removeOp id => removeTask sess id

/-- Run a sequence of session operations left to right. -/
def runOps (sess : Session) : List SessionOp → Session
  | [] => sess
  | op :: ops => runOps (applyOp sess op) ops

/-- The collection holds pairwise-distinct task ids. -/
def nodupIds (ts : List Task) : Prop :=
  (ts.map Task.id).Nodup

instance (ts : List Task) : Decidable (nodupIds ts) := by
  unfold nodupIds; infer_instance

/-- A `createOp`'s generated id is absent from the store at the moment of
the call; the other operations carry no generated id. -/
def opFresh (sess : Session) : SessionOp → Bool
  | .createOp newId _ _ => (readAll sess.store).all (fun t => t.id != newId)
  | _ => true

/-- Along a run, every `createOp`'s generated id is absent from the store at
the moment of that call. -/
def freshAlong (sess : Session) : List SessionOp → Bool
  | [] => true
  | op :: ops => opFresh sess op && freshAlong (applyOp sess op) ops

/-! ## Concrete scenario data -/

/-- A pending task with id `"a"`. -/
def taskA : Task :=
  { id := "a", title := "alpha", description := none, createdAt := 0,
    updatedAt := some 0, done := false }

/-- A completed task with id `"b"`. -/
def taskB : Task :=
  { id := "b", title := "beta", description := some "second one",
    createdAt := 1, updatedAt := some 3, done := true }

/-- A task whose id collides with `taskA` but whose content differs. -/
def taskDupA : Task :=
  { id := "a", title := "duplicate", description := none, createdAt := 1,
    updatedAt := some 1, done := false }

/-- The patch object `\x7b done: true \x7d`. -/
def patchDone : TaskPatch :=
  { title := none, description := none, updatedAt := none, done := some true }

/-- A patch touching `title`, `done`, and (futilely) `updatedAt`. -/
def patchFull : TaskPatch :=
  { title := some "renamed", description := none, updatedAt := some 999,
    done := some true }

/-- A store with distinct ids, used to exercise the round-trip theorem. -/
def w1Store : Store := some [taskB, taskA]

/-- A create, an update and a remove, awaited in sequence. -/
def w1Ops : List SessionOp :=
  [SessionOp.createOp "c" 5 { title := "gamma", description := none, done := none },
   SessionOp.updateOp "a" 6 patchDone,
   SessionOp.removeOp "b"]

/-! ## Helper lemmas -/

theorem filter_idem (f : Task → Bool) (ts : List Task) :
    (ts.filter f).filter f = ts.filter f := by
  induction ts with
  | nil => rfl
  | cons t ts ih =>
    cases hf : f t with
    | true => simp [List.filter_cons, hf, ih]
    | false => simp [List.filter_cons, hf, ih]

/-- The two levels agree: decoding the blob that `saveAll` writes yields
exactly the encoded task list, and an absent key decodes to `[]`. -/
theorem getAllJson_encodeStore (s : Store) :
    getAllJson (encodeStore s) = (getAll s).map encodeTask := by
  cases s <;> rfl

theorem updateList_no_match (id : String) (now : Nat) (p : TaskPatch)
    (ts : List Task) (h : ∀ q ∈ ts, (q.id == id) = false) :
    updateList id now p ts = (ts, none) := by
  induction ts with
  | nil => rfl
  | cons t ts ih =>
    have ht : (t.id == id) = false := h t (List.mem_cons_self ..)
    have hts := ih (fun q hq => h q (List.mem_cons_of_mem _ hq))
    simp [updateList, ht, hts]

theorem map_no_match (id : String) (x : Task) (ts : List Task)
    (h : ∀ q ∈ ts, (q.id == id) = false) :
    ts.map (fun q => if q.id == id then x else q) = ts := by
  induction ts with
  | nil => rfl
  | cons t ts ih =>
    have ht : (t.id == id) = false := h t (List.mem_cons_self ..)
    rw [List.map_cons,
      (by simp [ht] : (if t.id == id then x else t) = t),
      ih (fun q hq => h q (List.mem_cons_of_mem _ hq))]

theorem updateList_unique_match (id : String) (now : Nat) (p : TaskPatch)
    (pre post : List Task) (t : Task)
    (hpre : ∀ q ∈ pre, (q.id == id) = false) (ht : (t.id == id) = true)
    (hpost : ∀ q ∈ post, (q.id == id) = false) :
    updateList id now p (pre ++ t :: post)
      = (pre ++ applyPatch t p now :: post, some (applyPatch t p now)) := by
  induction pre with
  | nil =>
    have hrest := updateList_no_match id now p post hpost
    simp [updateList, ht, hrest, Option.orElse]
  | cons q pre ih =>
    have hq : (q.id == id) = false := hpre q (List.mem_cons_self ..)
    have := ih (fun r hr => hpre r (List.mem_cons_of_mem _ hr))
    simp [updateList, hq, this]

theorem updateList_map_id (id : String) (now : Nat) (p : TaskPatch)
    (ts : List Task) :
    ((updateList id now p ts).1).map Task.id = ts.map Task.id := by
  induction ts with
  | nil => rfl
  | cons t ts ih =>
    cases hb : (t.id == id) with
    | true => simp [updateList, hb, applyPatch, ih]
    | false => simp [updateList, hb, ih]

/-- With pairwise-distinct ids, patching every match in place (what the
store writes) coincides with replacing every match by the returned task
(what the session mirror does). -/
theorem updateList_mirror (id : String) (now : Nat) (p : TaskPatch)
    (ts : List Task) (h : nodupIds ts) :
    (updateList id now p ts).1
      = (match (updateList id now p ts).2 with
         | none => ts
         | some t => ts.map (fun q => if q.id == id then t else q)) := by
  induction ts with
  | nil => rfl
  | cons t ts ih =>
    rw [nodupIds, List.map_cons, List.nodup_cons] at h
    obtain ⟨hnotin, hts⟩ := h
    have hts' : nodupIds ts := hts
    cases hb : (t.id == id) with
    | true =>
      have hid : t.id = id := by simpa using hb
      have hmiss : ∀ q ∈ ts, (q.id == id) = false := by
        intro q hq
        have hmem : q.id ∈ List.map Task.id ts := List.mem_map_of_mem Task.id hq
        have hne : q.id ≠ id := by
          intro hcontra
          rw [hcontra, ← hid] at hmem
          exact hnotin hmem
        simpa using hne
      have hrest := updateList_no_match id now p ts hmiss
      have hstep :
          updateList id now p (t :: ts)
            = (applyPatch t p now :: ts, some (applyPatch t p now)) := by
        simp [updateList, hb, hrest, Option.orElse]
      rw [hstep]
      show applyPatch t p now :: ts
        = (t :: ts).map (fun q => if q.id == id then applyPatch t p now else q)
      rw [List.map_cons,
        (by simp [hb] : (if t.id == id then applyPatch t p now else t) = applyPatch t p now),
        map_no_match id _ ts hmiss]
    | false =>
      have hstep :
          updateList id now p (t :: ts)
            = (t :: (updateList id now p ts).1, (updateList id now p ts).2) := by
        simp [updateList, hb]
      cases hr : (updateList id now p ts).2 with
      | none =>
        rw [hstep, hr]
        have hmain := ih hts'
        rw [hr] at hmain
        show t :: (updateList id now p ts).1 = t :: ts
        rw [hmain]
      | some u =>
        rw [hstep, hr]
        have hmain := ih hts'
        rw [hr] at hmain
        show t :: (updateList id now p ts).1
          = (t :: ts).map (fun q => if q.id == id then u else q)
        rw [List.map_cons,
          (by simp [hb] : (if t.id == id then u else t) = t), hmain]

theorem nodupIds_filter (f : Task → Bool) (ts : List Task)
    (h : nodupIds ts) : nodupIds (ts.filter f) := by
  unfold nodupIds at h ⊢
  exact h.sublist (List.Sublist.map Task.id (List.filter_sublist ts))

/-- One session mutation preserves "the mirror equals `readAll()`" and the
distinctness of the stored ids, provided a `createOp`'s generated id is
fresh. -/
theorem applyOp_mirror (sess : Session) (op : SessionOp)
    (hm : sess.tasks = readAll sess.store)
    (hn : nodupIds (readAll sess.store))
    (hf : opFresh sess op = true) :
    (applyOp sess op).tasks = readAll (applyOp sess op).store ∧
      nodupIds (readAll (applyOp sess op).store) := by
  cases op with
  | createOp newId now input =>
    constructor
    · show (create sess.store newId now input).2 :: sess.tasks
        = readAll (saveAll (_ :: getAll sess.store))
      rw [hm]; rfl
    · show nodupIds (readAll (saveAll (_ :: getAll sess.store)))
      have hf' : ∀ t ∈ getAll sess.store, (t.id != newId) = true := by
        simp only [opFresh] at hf
        exact List.all_eq_true.mp hf
      have hfresh : newId ∉ (getAll sess.store).map Task.id := by
        intro hmem
        obtain ⟨t, hmemt, hidt⟩ := List.mem_map.mp hmem
        have := hf' t hmemt
        rw [hidt] at this
        simp at this
      show ((create sess.store newId now input).2 :: getAll sess.store).map Task.id |>.Nodup
      rw [List.map_cons, List.nodup_cons]
      exact ⟨hfresh, hn⟩
  | updateOp id now p =>
    have hn2 : nodupIds (getAll sess.store) := hn
    have hmirror := updateList_mirror id now p (getAll sess.store) hn2
    cases hr : (updateList id now p (getAll sess.store)).2 with
    | none =>
      have heq : applyOp sess (.updateOp id now p)
          = { store := saveAll (updateList id now p (getAll sess.store)).1
              tasks := sess.tasks } := by
        show updateTask sess id now p = _
        rw [updateTask]
        show (match (updateList id now p (getAll sess.store)).2 with
              | some t =>
                { store := saveAll (updateList id now p (getAll sess.store)).1
                  tasks := sess.tasks.map (fun q => if q.id == id then t else q) }
              | none =>
                { store := saveAll (updateList id now p (getAll sess.store)).1
                  tasks := sess.tasks } : Session) = _
        rw [hr]
      rw [heq]
      rw [hr] at hmirror
      constructor
      · show sess.tasks = readAll (saveAll (updateList id now p (getAll sess.store)).1)
        rw [hm, hmirror]; rfl
      · show nodupIds (updateList id now p (getAll sess.store)).1
        rw [nodupIds, updateList_map_id]
        exact hn
    | some u =>
      have heq : applyOp sess (.updateOp id now p)
          = { store := saveAll (updateList id now p (getAll sess.store)).1
              tasks := sess.tasks.map (fun q => if q.id == id then u else q) } := by
        show updateTask sess id now p = _
        rw [updateTask]
        show (match (updateList id now p (getAll sess.store)).2 with
              | some t =>
                { store := saveAll (updateList id now p (getAll sess.store)).1
                  tasks := sess.tasks.map (fun q => if q.id == id then t else q) }
              | none =>
                { store := saveAll (updateList id now p (getAll sess.store)).1
                  tasks := sess.tasks } : Session) = _
        rw [hr]
      rw [heq]
      rw [hr] at hmirror
      constructor
      · show sess.tasks.map (fun q => if q.id == id then u else q)
          = readAll (saveAll (updateList id now p (getAll sess.store)).1)
        rw [hm]
        show (getAll sess.store).map (fun q => if q.id == id then u else q)
          = (updateList id now p (getAll sess.store)).1
        rw [hmirror]
      · show nodupIds (updateList id now p (getAll sess.store)).1
        rw [nodupIds, updateList_map_id]
        exact hn
  | removeOp id =>
    constructor
    · show sess.tasks.filter (fun q => q.id != id)
        = readAll (saveAll ((getAll sess.store).filter (fun t => t.id != id)))
      rw [hm]; rfl
    · exact nodupIds_filter _ _ hn

/-- Along any run of awaited session mutations that starts consistent, with
distinct stored ids and fresh generated ids, the mirror stays equal to
`readAll()`. -/
theorem runOps_mirror (ops : List SessionOp) (sess : Session)
    (hm : sess.tasks = readAll sess.store)
    (hn : nodupIds (readAll sess.store))
    (hf : freshAlong sess ops = true) :
    (runOps sess ops).tasks = readAll (runOps sess ops).store := by
  induction ops generalizing sess with
  | nil => simpa [runOps] using hm
  | cons op ops ih =>
    rw [freshAlong, Bool.and_eq_true] at hf
    obtain ⟨h1, h2⟩ := hf
    obtain ⟨hm', hn'⟩ := applyOp_mirror sess op hm hn h1
    exact ih (applyOp sess op) hm' hn' h2

/-! ## Claim theorems -/

/-- Claim C1, counterexample: with a loaded collection that holds two tasks
sharing the id `"a"` (content differing), a single awaited `updateTask` on
`"a"` leaves the in-memory mirror different from `readAll()`: the store
patches each duplicate in place while the mirror overwrites every duplicate
with the one returned task.  So the claim as stated, quantifying over all
loads and operation sequences, is false. -/
theorem claim1_roundTrip_counterexample :
    (runOps (sessionLoad (some [taskDupA, taskA]))
        [SessionOp.updateOp "a" 5 patchDone]).tasks
      ≠ readAll (runOps (sessionLoad (some [taskDupA, taskA]))
        [SessionOp.updateOp "a" 5 patchDone]).store := by
  decide

/-- Claim C1, amended: for every sequence of createTask/updateTask/removeTask
session operations executed sequentially (each awaited to completion) after
an initial load, provided the loaded collection has pairwise-distinct task
ids and each create's generated id is absent from the store at its call
time, the Task Session's in-memory mirror `tasks` after the last operation
equals the sequence returned by calling Record Store readAll() directly at
that point. -/
theorem claim1_roundTrip (s : Store) (ops : List SessionOp)
    (hn : nodupIds (readAll s))
    (hf : freshAlong (sessionLoad s) ops = true) :
    (runOps (sessionLoad s) ops).tasks
      = readAll (runOps (sessionLoad s) ops).store :=
  runOps_mirror ops (sessionLoad s) rfl hn hf

/-- Claim C1, witness: the amended round-trip theorem applied to a concrete
two-task store and a concrete create/update/remove run. -/
theorem claim1_roundTrip_witness :
    nodupIds (readAll w1Store)
    ∧ freshAlong (sessionLoad w1Store) w1Ops = true
    ∧ (runOps (sessionLoad w1Store) w1Ops).tasks
        = readAll (runOps (sessionLoad w1Store) w1Ops).store :=
  ⟨by decide, by decide, claim1_roundTrip w1Store w1Ops (by decide) (by decide)⟩

/-- Claim C2: on a collection containing exactly one task with the given id,
`update` merges the patch onto that task (fields absent from the patch are
retained), forces `updatedAt` to the current instant even when the patch
carried an `updatedAt`, keeps `id` and `createdAt`, writes the collection
back with the updated task at its previous index and every other task
unchanged in order, and returns the updated task; in particular a
`done: true` patch yields `done = true`, and the new `updatedAt` is strictly
later than the prior one whenever the call's instant is. -/
theorem claim2_update_found (pre post : List Task) (t : Task) (id : String)
    (p : TaskPatch) (now : Nat)
    (hid : t.id = id)
    (hpre : ∀ q ∈ pre, q.id ≠ id) (hpost : ∀ q ∈ post, q.id ≠ id) :
    update (some (pre ++ t :: post)) id now p
      = (some (pre ++ applyPatch t p now :: post), some (applyPatch t p now))
    ∧ (applyPatch t p now).id = t.id
    ∧ (applyPatch t p now).createdAt = t.createdAt
    ∧ (applyPatch t p now).updatedAt = some now
    ∧ (p.title = none → (applyPatch t p now).title = t.title)
    ∧ (p.description = none → (applyPatch t p now).description = t.description)
    ∧ (p.done = none → (applyPatch t p now).done = t.done)
    ∧ (p.done = some true → (applyPatch t p now).done = true)
    ∧ (∀ u, t.updatedAt = some u → u < now →
        ∃ v, (applyPatch t p now).updatedAt = some v ∧ u < v) := by
  have hb : (t.id == id) = true := by simpa using hid
  have hpre' : ∀ q ∈ pre, (q.id == id) = false := fun q hq => by
    simpa using hpre q hq
  have hpost' : ∀ q ∈ post, (q.id == id) = false := fun q hq => by
    simpa using hpost q hq
  have hmain := updateList_unique_match id now p pre post t hpre' hb hpost'
  refine ⟨?_, rfl, rfl, rfl, ?_, ?_, ?_, ?_, ?_⟩
  · show (saveAll (updateList id now p (pre ++ t :: post)).1,
          (updateList id now p (pre ++ t :: post)).2)
      = (some (pre ++ applyPatch t p now :: post), some (applyPatch t p now))
    rw [hmain]
    rfl
  · intro h; simp [applyPatch, h]
  · intro h; simp [applyPatch, h]
  · intro h; simp [applyPatch, h]
  · intro h; simp [applyPatch, h]
  · intro u hu hlt; exact ⟨now, rfl, hlt⟩

/-- Claim C2, witness: the update theorem applied to a concrete three-task
collection whose middle task `"b"` is patched with a `done`/`title` patch
that also (futilely) carries `updatedAt`. -/
theorem claim2_update_found_witness :
    taskB.id = "b" ∧ (∀ q ∈ [taskA], q.id ≠ "b") ∧ (∀ q ∈ [taskDupA], q.id ≠ "b")
    ∧ update (some ([taskA] ++ taskB :: [taskDupA])) "b" 7 patchFull
      = (some ([taskA] ++ applyPatch taskB patchFull 7 :: [taskDupA]),
         some (applyPatch taskB patchFull 7)) :=
  ⟨rfl, by decide, by decide,
   (claim2_update_found [taskA] [taskDupA] taskB "b" patchFull 7 rfl
     (by decide) (by decide)).1⟩

/-- Claim C3: for every prior collection and input, `create` returns a task
with `createdAt` equal to `updatedAt`, `done` equal to the supplied value or
`false` when not supplied, and a subsequent `readAll()` has the new task at
index 0 followed by all previously existing tasks unchanged in order. -/
theorem claim3_create_spec (s : Store) (newId : String) (now : Nat)
    (input : CreateInput) :
    (create s newId now input).2.createdAt = now
    ∧ (create s newId now input).2.updatedAt
        = some (create s newId now input).2.createdAt
    ∧ (input.done = none → (create s newId now input).2.done = false)
    ∧ (∀ b, input.done = some b → (create s newId now input).2.done = b)
    ∧ readAll (create s newId now input).1
        = (create s newId now input).2 :: readAll s
    ∧ (create s newId now input).2.id = newId
    ∧ (create s newId now input).2.title = input.title
    ∧ (create s newId now input).2.description = input.description := by
  refine ⟨rfl, rfl, ?_, ?_, rfl, rfl, rfl, rfl⟩
  · intro h; simp [create, h]
  · intro b h; simp [create, h]

/-- Claim C3, witness: the create theorem applied at concrete inputs, once
without a supplied `done` and once with `done: true`. -/
theorem claim3_create_spec_witness :
    (create none "n1" 3 { title := "t", description := none, done := none }).2.done
      = false
    ∧ (create none "n2" 4
        { title := "t", description := none, done := some true }).2.done = true :=
  ⟨(claim3_create_spec none "n1" 3
      { title := "t", description := none, done := none }).2.2.1 rfl,
   (claim3_create_spec none "n2" 4
      { title := "t", description := none, done := some true }).2.2.2.1 true rfl⟩

/-- Claim C4: whenever the persisted blob is absent, unparseable, or decodes
to something other than an array, `readAll()` returns the empty sequence
(and, being a total function here, never surfaces the corruption as an
error). -/
theorem claim4_readAll_corrupted (b : RawBlob)
    (h : ∀ xs : List Json, b ≠ RawBlob.stored (Json.arr xs)) :
    readAllJson b = [] := by
  cases b with
  | absent => rfl
  | malformed raw => rfl
  | stored v =>
    cases v with
    | arr xs => exact absurd rfl (h xs)
    | null => rfl
    | bool b2 => rfl
    | num n => rfl
    | str s => rfl
    | obj fields => rfl

/-- Claim C4, witness: the corruption theorem applied to the three concrete
corruption states: a stored bare string, an absent key, and an unparseable
blob. -/
theorem claim4_readAll_corrupted_witness :
    readAllJson (RawBlob.stored (Json.str "oops")) = []
    ∧ readAllJson RawBlob.absent = []
    ∧ readAllJson (RawBlob.malformed "no json here") = [] :=
  ⟨claim4_readAll_corrupted _ (fun _ h => Json.noConfusion (RawBlob.stored.inj h)),
   claim4_readAll_corrupted _ (fun _ h => RawBlob.noConfusion h),
   claim4_readAll_corrupted _ (fun _ h => RawBlob.noConfusion h)⟩

/-- Claim C5, code bug: in a runtime without a secure random source, the
optional chaining inside `cryptoRandomId` swallows the absence instead of
throwing, so the zero-initialised buffer is rendered: every generated id is
the constant 32-zero string and the base-36 fallback of the catch branch is
never reached.  Consequently the second of two creates returns a task whose
id already occurs in the collection, contradicting the claimed uniqueness
and the claimed fallback behaviour. -/
theorem claim5_id_generation_bug :
    cryptoRandomId CryptoEnv.unavailable = "00000000000000000000000000000000"
    ∧ (create (create none (cryptoRandomId CryptoEnv.unavailable) 1
          { title := "first", description := none, done := none }).1
        (cryptoRandomId CryptoEnv.unavailable) 2
          { title := "second", description := none, done := none }).2.id
        ∈ (readAll (create none (cryptoRandomId CryptoEnv.unavailable) 1
          { title := "first", description := none, done := none }).1).map Task.id := by
  constructor
  · rfl
  · decide

/-- Claim C6: `update` on an id that occurs nowhere in the collection
returns `none`, a subsequent `readAll()` observes the collection unchanged,
and the session's `updateTask` leaves its mirror untouched on that result. -/
theorem claim6_update_missing (s : Store) (id : String) (now : Nat)
    (p : TaskPatch)
    (h : ∀ t ∈ getAll s, t.id ≠ id) :
    (update s id now p).2 = none
    ∧ readAll (update s id now p).1 = readAll s
    ∧ ∀ sess : Session, sess.store = s →
        (updateTask sess id now p).tasks = sess.tasks := by
  have h' : ∀ q ∈ getAll s, (q.id == id) = false := fun q hq => by
    simpa using h q hq
  have hl := updateList_no_match id now p (getAll s) h'
  refine ⟨?_, ?_, ?_⟩
  · show (updateList id now p (getAll s)).2 = none
    rw [hl]
  · show readAll (saveAll (updateList id now p (getAll s)).1) = readAll s
    rw [hl]
    rfl
  · intro sess hs
    subst hs
    have hl2 : (updateList id now p (getAll sess.store)).2 = none := by rw [hl]
    show (match (updateList id now p (getAll sess.store)).2 with
          | some t =>
            ({ store := saveAll (updateList id now p (getAll sess.store)).1
               tasks := sess.tasks.map (fun (q : Task) => if q.id == id then t else q) } : Session)
          | none =>
            { store := saveAll (updateList id now p (getAll sess.store)).1
              tasks := sess.tasks }).tasks = sess.tasks
    rw [hl2]

/-- Claim C6, witness: updating the non-existent id `"zzz"` in a one-task
collection returns `none` and leaves `readAll()` unchanged. -/
theorem claim6_update_missing_witness :
    (∀ t ∈ getAll (some [taskA]), t.id ≠ "zzz")
    ∧ (update (some [taskA]) "zzz" 9 patchDone).2 = none
    ∧ readAll (update (some [taskA]) "zzz" 9 patchDone).1 = readAll (some [taskA]) :=
  ⟨by decide,
   (claim6_update_missing (some [taskA]) "zzz" 9 patchDone (by decide)).1,
   (claim6_update_missing (some [taskA]) "zzz" 9 patchDone (by decide)).2.1⟩

/-- Claim C7: `remove` is idempotent — removing twice equals removing once
(the second call is a no-op that does not fail), and removing an id absent
from the collection leaves `readAll()` unchanged. -/
theorem claim7_remove_idempotent (s : Store) (id : String) :
    remove (remove s id) id = remove s id
    ∧ ((∀ t ∈ getAll s, t.id ≠ id) → readAll (remove s id) = readAll s) := by
  constructor
  · show saveAll (((getAll s).filter (fun t => t.id != id)).filter
        (fun t => t.id != id))
      = saveAll ((getAll s).filter (fun t => t.id != id))
    rw [filter_idem]
  · intro h
    show (getAll s).filter (fun t => t.id != id) = readAll s
    have h' : ∀ t ∈ getAll s, (t.id != id) = true := fun t ht => by
      simpa using h t ht
    exact List.filter_eq_self.mpr h'

/-- Claim C7, witness: removing the absent id `"zzz"` twice from a one-task
collection: the second call is a no-op and `readAll()` is unchanged. -/
theorem claim7_remove_idempotent_witness :
    remove (remove (some [taskA]) "zzz") "zzz" = remove (some [taskA]) "zzz"
    ∧ readAll (remove (some [taskA]) "zzz") = readAll (some [taskA]) :=
  ⟨(claim7_remove_idempotent (some [taskA]) "zzz").1,
   (claim7_remove_idempotent (some [taskA]) "zzz").2 (by decide)⟩

/-- Claim C8: `clearAll` removes the persisted key entirely — the state is
`none`, which is distinct from persisting an empty sequence — and a
subsequent `readAll()` returns the empty sequence. -/
theorem claim8_clearAll (s : Store) :
    clearAll s = none ∧ clearAll s ≠ saveAll [] ∧ readAll (clearAll s) = [] := by
  refine ⟨rfl, ?_, rfl⟩
  intro hcontra
  exact Option.noConfusion hcontra

/-- Claim C8, witness: clearing a concrete one-task store. -/
theorem claim8_clearAll_witness :
    clearAll (some [taskA]) = none
    ∧ clearAll (some [taskA]) ≠ saveAll []
    ∧ readAll (clearAll (some [taskA])) = [] :=
  claim8_clearAll (some [taskA])

/-- Claim C9: for every mirror state, the derived statistics satisfy
`total = done + pending` and `total = length tasks`, where `done` counts the
entries with `done = true`. -/
theorem claim9_stats_invariant (tasks : List Task) :
    (stats tasks).total = (stats tasks).done + (stats tasks).pending
    ∧ (stats tasks).total = tasks.length := by
  have h : (tasks.filter (fun t => t.done)).length ≤ tasks.length :=
    List.length_filter_le _ _
  constructor
  · show tasks.length
      = (tasks.filter (fun t => t.done)).length
        + (tasks.length - (tasks.filter (fun t => t.done)).length)
    omega
  · rfl

/-- Claim C10: `readAll()` performs no per-element validation — every blob
that decodes to an array is returned element-for-element as decoded, task
shaped or not. -/
theorem claim10_no_element_validation (xs : List Json) :
    readAllJson (RawBlob.stored (Json.arr xs)) = xs
    ∧ getAllJson (RawBlob.stored (Json.arr xs)) = xs :=
  ⟨rfl, rfl⟩

end TaskApp
